import Mathlib

/-!
Verification of the TextExtractor n8n node
(`nodes/TextExtractor/TextExtractor.node.ts`, `nodes/TextExtractor/pdfToImages.ts`).

The TypeScript source is shallowly embedded: external engines (tesseract.js,
unpdf, pdf-to-png-converter, mammoth, word-extractor, sharp) are opaque
collaborators, modelled as oracle functions bundled in an `Env` structure;
fallible external calls return `Except String`; the JavaScript number that
can become `NaN` is modelled by the `JsNumber` type.  Observable side effects
that the spec talks about (engine creation/termination, rasterization,
recognition) are recorded in an explicit event trace.
-/

/-- The closed set of supported file kinds (`type FileType` in the source). -/
inductive FileType where
  | image
  | pdf
  | docx
  | doc
  | txt
deriving DecidableEq

/-- `MIME_MAP` from the source: the fixed MIME-type-to-kind table.
A JS `Record` literal is modelled as an association list with `List.lookup`. -/
def MIME_MAP : List (String × FileType) :=
  [ ("image/png", .image)
  , ("image/jpeg", .image)
  , ("image/jpg", .image)
  , ("image/webp", .image)
  , ("image/bmp", .image)
  , ("image/tiff", .image)
  , ("image/gif", .image)
  , ("application/pdf", .pdf)
  , ("application/vnd.openxmlformats-officedocument.wordprocessingml.document", .docx)
  , ("application/msword", .doc)
  , ("text/plain", .txt) ]

/-- `EXT_MAP` from the source: the fixed extension-to-kind table. -/
def EXT_MAP : List (String × FileType) :=
  [ ("png", .image)
  , ("jpg", .image)
  , ("jpeg", .image)
  , ("webp", .image)
  , ("bmp", .image)
  , ("tiff", .image)
  , ("tif", .image)
  , ("gif", .image)
  , ("pdf", .pdf)
  , ("docx", .docx)
  , ("doc", .doc)
  , ("txt", .txt) ]

/-- JS `s.split('.')` for the one-character separator used in the source,
written as structural recursion over the character list.  JS `split` always
returns at least one (possibly empty) segment. -/
def splitOnDot : List Char → List (List Char)
  | [] => [[]]
  | c :: rest =>
    if c = '.' then [] :: splitOnDot rest
    else
      match splitOnDot rest with
      | [] => [[c]]
      | x :: xs => (c :: x) :: xs

/-- JS `String.prototype.toLowerCase`, modelled characterwise. -/
def jsToLower (s : String) : String :=
  String.mk (s.data.map Char.toLower)

/-- `fileName.split('.').pop()?.toLowerCase()` from `detectFileType`:
the last segment of the dot-split, lowercased.  `pop()` on the nonempty
array returned by `split` is the last element. -/
def lastDotSegment (f : String) : String :=
  jsToLower (String.mk ((splitOnDot f.data).getLastD []))

/-- The extension branch of `detectFileType` (source lines 46-49):
guarded by JS truthiness of `fileName` and of the popped extension. -/
def extBranch (fileName : Option String) : Option FileType :=
  match fileName with
  | some f =>
    if f ≠ "" then
      let ext := lastDotSegment f
      if ext ≠ "" then EXT_MAP.lookup ext else none
    else none
  | none => none

/-- `detectFileType(mimeType?, fileName?)` from the source: the MIME table
is consulted first (guarded by JS truthiness of `mimeType`), the extension
table second, otherwise `null`. -/
def detectFileType (mimeType fileName : Option String) : Option FileType :=
  let viaMime : Option FileType :=
    match mimeType with
    | some m => if m ≠ "" then MIME_MAP.lookup m else none
    | none => none
  match viaMime with
  | some t => some t
  | none => extBranch fileName

/-- The characters strictly after the last `'.'` of the list, or the whole
list when no `'.'` occurs.  Used to phrase the spec's step (2) of the
detection algorithm. -/
def afterLastDot : List Char → List Char
  | [] => []
  | c :: rest =>
    if '.' ∈ rest then afterLastDot rest
    else if c = '.' then rest
    else c :: afterLastDot rest

/-- The detection algorithm exactly as the specification words it:
(1) if `mimeType` is non-empty and present in the MIME table, return its
mapping; (2) else, if `fileName` is non-empty, look up the lowercased
substring after the last `.` in the extension table and return its mapping
if found; (3) otherwise return null. -/
def specDetect (mimeType fileName : Option String) : Option FileType :=
  match mimeType with
  | some m =>
    if m ≠ "" ∧ (MIME_MAP.lookup m).isSome then MIME_MAP.lookup m
    else
      match fileName with
      | some f => if f ≠ "" then EXT_MAP.lookup (jsToLower (String.mk (afterLastDot f.data))) else none
      | none => none
  | none =>
    match fileName with
    | some f => if f ≠ "" then EXT_MAP.lookup (jsToLower (String.mk (afterLastDot f.data))) else none
    | none => none

/-- JS `String.prototype.trim`, modelled characterwise: drop whitespace from
both ends. -/
def jsTrim (s : String) : String :=
  String.mk (((s.data.dropWhile Char.isWhitespace).reverse.dropWhile Char.isWhitespace).reverse)

/-- JS `Array.prototype.join(sep)`. -/
def jsJoin (sep : String) : List String → String
  | [] => ""
  | [x] => x
  | x :: y :: rest => x ++ sep ++ jsJoin sep (y :: rest)

/-- JS `s.startsWith(p)`. -/
def jsStartsWith (s p : String) : Bool :=
  p.data.isPrefixOf s.data

/-- A JavaScript number that is either an actual (here always integral after
`Math.round`) number or `NaN`. -/
inductive JsNumber where
  | nan : JsNumber
  | int : Int → JsNumber
deriving DecidableEq

/-- JS `Math.round` on a rational: `⌊q + 1/2⌋` (ties toward positive
infinity, exactly JS semantics).  Written on the raw numerator and
denominator — `q + 1/2 = (2 num + den) / (2 den)` — so that it evaluates by
kernel reduction; `jsRound_eq_round` below identifies it with Mathlib's
`round`. -/
def jsRound (q : ℚ) : Int :=
  Rat.floor (Rat.divInt (2 * q.num + q.den) (2 * q.den))

/-- JS `Math.round(total / n)` for an integer `total` and an array length
`n`, as used to average the per-page confidences in `extractFromPdf`.  At
the one call site `total` is `0` whenever `n` is `0` (it is a sum over the
same empty array), and JS `0 / 0` is `NaN` with `Math.round(NaN) = NaN`. -/
def jsRoundDiv (total : Int) (n : Nat) : JsNumber :=
  if n = 0 then JsNumber.nan
  else JsNumber.int (jsRound (Rat.divInt total (n : Int)))

/-- Observable effects of one batch run that the spec reasons about:
OCR-engine creation (with its language) and termination, PDF rasterization,
and per-image recognition. -/
inductive Event where
  | created : String → Event
  | terminated : Event
  | rasterized : Event
  | recognized : Event
deriving DecidableEq

/-- `true` exactly on engine-creation events. -/
def isCreatedEv : Event → Bool
  | .created _ => true
  | _ => false

/-- `true` exactly on engine-termination events. -/
def isTerminatedEv : Event → Bool
  | .terminated => true
  | _ => false

/-- A live tesseract.js worker handle: `recognize` returns raw text and a
raw confidence score, or throws. -/
structure OcrWorker (Img : Type) where
  recognize : Img → Except String (String × ℚ)

/-- The result of `unpdf`'s `getDocumentProxy` + `extractText(mergePages)`
on one PDF buffer: the page count and the merged text layer. -/
structure PdfDoc where
  numPages : Nat
  text : String
deriving DecidableEq

/-- The external engines consumed by the node, as oracles on opaque buffer
and image types.  In JS both are `Buffer`; `bufAsImage` is the (identity)
coercion used when an item's file buffer is fed directly to the OCR engine.
Fallible engine calls return `Except String`. -/
structure Env (Buf Img : Type) where
  createWorker : String → Except String (OcrWorker Img)
  preprocessImage : Img → Img
  bufAsImage : Buf → Img
  pdfDoc : Buf → Except String PdfDoc
  rasterize : Buf → ℚ → Except String (List Img)
  docxRaw : Buf → Except String String
  docRaw : Buf → Except String String
  txtDecode : Buf → String

/-- `extractFromImage(buffer, worker, preprocess)` from the source: apply the
sharp filter chain when `preprocess` is set, recognize, trim the text and
round the confidence.  The implementation always returns a non-null rounded
confidence; the `Option` mirrors the declared `number | null` type. -/
def extractFromImage {Buf Img : Type} (env : Env Buf Img) (w : OcrWorker Img)
    (preprocess : Bool) (buffer : Img) : Except String (String × Option Int) :=
  let input := if preprocess then env.preprocessImage buffer else buffer
  match w.recognize input with
  | .error e => .error e
  | .ok (text, confidence) => .ok (jsTrim text, some (jsRound confidence))

/-- The `for (const img of images)` loop of `extractFromPdf`: recognize each
page image in order, collecting text and confidence, propagating the first
failure. -/
def ocrPages {Buf Img : Type} (env : Env Buf Img) (w : OcrWorker Img) (preprocess : Bool) :
    List Img → Except String (List (String × Option Int))
  | [] => .ok []
  | img :: rest =>
    match extractFromImage env w preprocess img with
    | .error e => .error e
    | .ok r =>
      match ocrPages env w preprocess rest with
      | .error e => .error e
      | .ok rs => .ok (r :: rs)

/-- `strategy === 'auto' || strategy === 'text'` (source line 87). -/
def shouldTryText (strategy : String) : Bool :=
  strategy == "auto" || strategy == "text"

/-- `strategy === 'auto' || strategy === 'ocr'` (source line 88). -/
def shouldTryOcr (strategy : String) : Bool :=
  strategy == "auto" || strategy == "ocr"

/-- The text-layer phase of `extractFromPdf` (source lines 90-99): when the
strategy tries text, open the document, record the page count and trim the
merged text layer; otherwise keep the initial `('', 0)`. -/
def textPhase {Buf Img : Type} (env : Env Buf Img) (buffer : Buf) (strategy : String) :
    Except String (String × Nat) :=
  if shouldTryText strategy = true then
    match env.pdfDoc buffer with
    | .error e => .error e
    | .ok doc => .ok (jsTrim doc.text, doc.numPages)
  else .ok ("", 0)

/-- The result record of `extractFromPdf`. -/
structure PdfResult where
  text : String
  pageCount : Nat
  confidence : Option JsNumber
  method : String
deriving DecidableEq

/-- `extractFromPdf(buffer, strategy, worker, preprocess, renderScale,
minTextThreshold)` from the source, with an event trace recording
rasterization and per-page recognition: run the text phase; short-circuit
with `pdf-text` when the trimmed text reaches the threshold; otherwise run
the OCR fallback when the strategy allows it and a worker is present;
otherwise return the text-layer result with `pdf-text`. -/
def extractFromPdf {Buf Img : Type} (env : Env Buf Img) (buffer : Buf) (strategy : String)
    (worker : Option (OcrWorker Img)) (preprocess : Bool) (renderScale : ℚ)
    (minTextThreshold : Nat) : Except String (PdfResult × List Event) :=
  match textPhase env buffer strategy with
  | .error e => .error e
  | .ok (textResult, pageCount) =>
    if shouldTryText strategy = true ∧ minTextThreshold ≤ textResult.length then
      .ok ({ text := textResult, pageCount := pageCount,
             confidence := none, method := "pdf-text" }, [])
    else
      match worker with
      | some w =>
        if shouldTryOcr strategy = true then
          match env.rasterize buffer renderScale with
          | .error e => .error e
          | .ok images =>
            match ocrPages env w preprocess images with
            | .error e => .error e
            | .ok results =>
              .ok ({ text := jsJoin "\n\n" (results.map Prod.fst),
                     pageCount := images.length,
                     confidence :=
                       some (jsRoundDiv ((results.map (fun r => r.2.getD 0)).sum) images.length),
                     method := "pdf-ocr" },
                   Event.rasterized :: results.map (fun _ => Event.recognized))
        else
          .ok ({ text := textResult, pageCount := pageCount,
                 confidence := none, method := "pdf-text" }, [])
      | none =>
        .ok ({ text := textResult, pageCount := pageCount,
               confidence := none, method := "pdf-text" }, [])

/-- One named binary field of an input item: metadata plus the payload. -/
structure BinaryData (Buf : Type) where
  fileName : Option String
  mimeType : Option String
  buffer : Buf

/-- One input item of a batch: its ordered named binary fields together with
the values the host supplies for this item's parameters (`pdfStrategy`,
`pdfRenderScale`, `minTextThreshold` as read with `getNodeParameter(_, i)`). -/
structure Item (Buf : Type) where
  binary : List (String × BinaryData Buf)
  pdfStrategy : String
  renderScale : ℚ
  minTextThreshold : Nat

/-- The batch-level parameters read at index 0 plus the host's
continue-on-fail policy. -/
structure Cfg where
  binaryProperty : String
  operation : String
  ocrLanguage : String
  preprocess : Bool
  continueOnFail : Bool

/-- One output record pushed to `returnData`.  Success records carry
`text`/`method` and `error := none`; degraded records carry `error` and have
every other field null — `Option` fields model the JSON nullables. -/
structure OutRec where
  text : Option String
  fileName : String
  mimeType : String
  fileType : Option FileType
  pageCount : Option Nat
  confidence : Option JsNumber
  language : Option String
  method : Option String
  error : Option String
deriving DecidableEq

/-- Binary-field resolution (source lines 298-307): use the configured
property name when present on the item, otherwise fall back to the first
available binary field; `assertBinaryData` then fails when the resolved
field is still absent (modelled by the final lookup returning `none`). -/
def resolveBinary {Buf : Type} (binaryProperty : String) (item : Item Buf) :
    Option (BinaryData Buf) :=
  let resolvedProperty :=
    if (item.binary.lookup binaryProperty).isSome then binaryProperty
    else
      match item.binary.head? with
      | some kv => kv.1
      | none => binaryProperty
  item.binary.lookup resolvedProperty

/-- Operation-to-kind resolution (source lines 313-324): `auto` detects,
`ocr` forces image, `pdf` forces pdf, `document` detects and defaults to
docx unless detection says doc/docx. -/
def resolveFileType (operation mimeType fileName : String) : Option FileType :=
  if operation = "auto" then detectFileType (some mimeType) (some fileName)
  else if operation = "ocr" then some .image
  else if operation = "pdf" then some .pdf
  else
    let detected := detectFileType (some mimeType) (some fileName)
    if detected = some .doc ∨ detected = some .docx then detected else some .docx

/-- `needsOcr` (source lines 335-338): image always; pdf when its strategy
is not `text`. -/
def needsOcrFor (fileType : FileType) (pdfStrategy : String) : Bool :=
  fileType == .image || (fileType == .pdf && !(pdfStrategy == "text"))

/-- Lazy worker initialization (source lines 340-343): create the worker for
the configured language only when OCR is needed and no worker exists yet;
creation failure propagates as the item's error. -/
def initWorker {Buf Img : Type} (env : Env Buf Img) (lang : String) (needsOcr : Bool)
    (worker : Option (OcrWorker Img)) :
    Option (OcrWorker Img) × List Event × Except String Unit :=
  if needsOcr && worker.isNone then
    match env.createWorker lang with
    | .ok w => (some w, [Event.created lang], .ok ())
    | .error e => (worker, [], .error e)
  else (worker, [], .ok ())

/-- The `switch (fileType)` of the item loop (source lines 350-395),
producing the `text`, `pageCount`, `confidence` and `method` variables.  In
the image arm the source asserts `worker!`; a null worker there would fault
at runtime, modelled as an error. -/
def dispatch {Buf Img : Type} (env : Env Buf Img) (cfg : Cfg) (item : Item Buf)
    (worker : Option (OcrWorker Img)) (buffer : Buf) :
    FileType → List Event × Except String (String × Option Nat × Option JsNumber × String)
  | .image =>
    match worker with
    | none => ([], .error "worker is null")
    | some w =>
      match extractFromImage env w cfg.preprocess (env.bufAsImage buffer) with
      | .error e => ([], .error e)
      | .ok (text, confidence) => ([], .ok (text, none, confidence.map JsNumber.int, "ocr"))
  | .pdf =>
    match extractFromPdf env buffer item.pdfStrategy worker cfg.preprocess item.renderScale
        item.minTextThreshold with
    | .error e => ([], .error e)
    | .ok (r, evs) => (evs, .ok (r.text, some r.pageCount, r.confidence, r.method))
  | .docx =>
    match env.docxRaw buffer with
    | .error e => ([], .error e)
    | .ok v => ([], .ok (jsTrim v, none, none, "docx"))
  | .doc =>
    match env.docRaw buffer with
    | .error e => ([], .error e)
    | .ok v => ([], .ok (jsTrim v, none, none, "doc"))
  | .txt => ([], .ok (jsTrim (env.txtDecode buffer), none, none, "txt"))

/-- The body of the `try` block for one item (source lines 296-408): resolve
the binary field, detect the kind, lazily initialize the worker, dispatch,
and assemble the success record.  Returns the possibly-updated worker, the
emitted events, and the record or the thrown error. -/
def processItem {Buf Img : Type} (env : Env Buf Img) (cfg : Cfg)
    (worker : Option (OcrWorker Img)) (item : Item Buf) :
    Option (OcrWorker Img) × List Event × Except String OutRec :=
  match resolveBinary cfg.binaryProperty item with
  | none => (worker, [], .error "No binary data found on item")
  | some bd =>
    let fileName := bd.fileName.getD "unknown"
    let mimeType := bd.mimeType.getD ""
    match resolveFileType cfg.operation mimeType fileName with
    | none =>
      (worker, [],
        .error ("Unsupported file type: " ++ (if mimeType ≠ "" then mimeType else fileName)))
    | some fileType =>
      let needsOcr := needsOcrFor fileType item.pdfStrategy
      match initWorker env cfg.ocrLanguage needsOcr worker with
      | (worker2, evs1, .error e) => (worker2, evs1, .error e)
      | (worker2, evs1, .ok ()) =>
        match dispatch env cfg item worker2 bd.buffer fileType with
        | (evs2, .error e) => (worker2, evs1 ++ evs2, .error e)
        | (evs2, .ok (text, pageCount, confidence, method)) =>
          (worker2, evs1 ++ evs2, .ok
            { text := some text
            , fileName := fileName
            , mimeType := mimeType
            , fileType := some fileType
            , pageCount := pageCount
            , confidence := confidence
            , language := if needsOcr then some cfg.ocrLanguage else none
            , method := some method
            , error := none })

/-- The `catch` block's best-effort binary lookup (source lines 411-413):
the configured property if present, else the first binary value. -/
def bestEffortBinaryData {Buf : Type} (binaryProperty : String) (item : Item Buf) :
    Option (BinaryData Buf) :=
  match item.binary.lookup binaryProperty with
  | some bd => some bd
  | none => (item.binary.map Prod.snd).head?

/-- The degraded record emitted under continue-on-fail (source lines
414-425): the error message, best-effort filename/MIME, all other fields
null. -/
def degradedRecord {Buf : Type} (binaryProperty : String) (item : Item Buf)
    (msg : String) : OutRec :=
  let bd := bestEffortBinaryData binaryProperty item
  { text := none
  , fileName := (bd.bind BinaryData.fileName).getD "unknown"
  , mimeType := (bd.bind BinaryData.mimeType).getD ""
  , fileType := none
  , pageCount := none
  , confidence := none
  , language := none
  , method := none
  , error := some msg }

/-- The `for` loop of `execute` (source lines 295-430): process the items in
order threading the shared worker; a failing item either contributes a
degraded record and processing continues (continue-on-fail), or aborts the
batch, rethrowing its error.  Returns the final worker, the pushed records,
the event trace and the aborting error, if any. -/
def runLoop {Buf Img : Type} (env : Env Buf Img) (cfg : Cfg)
    (worker : Option (OcrWorker Img)) :
    List (Item Buf) → Option (OcrWorker Img) × List OutRec × List Event × Option String
  | [] => (worker, [], [], none)
  | item :: rest =>
    match processItem env cfg worker item with
    | (worker2, evs, .ok r) =>
      match runLoop env cfg worker2 rest with
      | (w3, recs, evs3, ab) => (w3, r :: recs, evs ++ evs3, ab)
    | (worker2, evs, .error e) =>
      if cfg.continueOnFail then
        match runLoop env cfg worker2 rest with
        | (w3, recs, evs3, ab) =>
          (w3, degradedRecord cfg.binaryProperty item e :: recs, evs ++ evs3, ab)
      else (worker2, [], evs, some e)

/-- `TextExtractor.execute` (source lines 283-438): run the loop from a null
worker; the `finally` block terminates the worker exactly when one exists,
on both the normal and the aborting exit path. -/
def execute {Buf Img : Type} (env : Env Buf Img) (cfg : Cfg) (items : List (Item Buf)) :
    Except String (List OutRec) × List Event :=
  match runLoop env cfg none items with
  | (w, recs, evs, ab) =>
    ( match ab with
      | some e => .error e
      | none => .ok recs
    , evs ++ (if w.isSome then [Event.terminated] else []) )

/-- Environment for the C1 witness: a two-page PDF whose text layer is
`hello`; every OCR-side oracle is inert. -/
def envC1 : Env Unit Unit :=
  { createWorker := fun _ => .error "unused"
  , preprocessImage := id
  , bufAsImage := id
  , pdfDoc := fun _ => .ok { numPages := 2, text := "hello" }
  , rasterize := fun _ _ => .error "unused"
  , docxRaw := fun _ => .error "unused"
  , docRaw := fun _ => .error "unused"
  , txtDecode := fun _ => "" }

/-- Degenerate worker whose `recognize` is never reached. -/
def wZero : OcrWorker Unit :=
  { recognize := fun _ => .error "unused" }

/-- Environment whose rasterizer yields an empty image sequence
(zero-page PDF). -/
def envZero : Env Unit Unit :=
  { createWorker := fun _ => .ok wZero
  , preprocessImage := id
  , bufAsImage := id
  , pdfDoc := fun _ => .error "unused"
  , rasterize := fun _ _ => .ok []
  , docxRaw := fun _ => .error "unused"
  , docRaw := fun _ => .error "unused"
  , txtDecode := fun _ => "" }

/-- Worker for the C5 witness: page 0 reads `PAGE1` with confidence 90,
page 1 reads `PAGE2` with confidence 80. -/
def wPages : OcrWorker Nat :=
  { recognize := fun i => if i = 0 then .ok ("PAGE1", 90) else .ok ("PAGE2", 80) }

/-- Environment for the C5 witness: a 2-page PDF with a 2-character text
layer, rasterized to page images `[0, 1]`. -/
def envPages : Env Unit Nat :=
  { createWorker := fun _ => .ok wPages
  , preprocessImage := id
  , bufAsImage := fun _ => 0
  , pdfDoc := fun _ => .ok { numPages := 2, text := "hi" }
  , rasterize := fun _ _ => .ok [0, 1]
  , docxRaw := fun _ => .error "unused"
  , docRaw := fun _ => .error "unused"
  , txtDecode := fun _ => "" }

/-- Environment for the batch-level witnesses: the PDF has a 5-character
text layer, worker creation succeeds, and the TXT decoder returns padded
text. -/
def envBatch : Env Unit Unit :=
  { createWorker := fun _ => .ok wZero
  , preprocessImage := id
  , bufAsImage := id
  , pdfDoc := fun _ => .ok { numPages := 1, text := "hello" }
  , rasterize := fun _ _ => .ok []
  , docxRaw := fun _ => .error "unused"
  , docRaw := fun _ => .error "unused"
  , txtDecode := fun _ => "  hello world  " }

/-- A PDF item with strategy `auto` and threshold 0, so the text layer
short-circuits. -/
def itemPdfShort : Item Unit :=
  { binary := [("data", { fileName := some "a.pdf"
                        , mimeType := some "application/pdf"
                        , buffer := () })]
  , pdfStrategy := "auto"
  , renderScale := 2
  , minTextThreshold := 0 }

/-- A plain-text item. -/
def itemTxt : Item Unit :=
  { binary := [("data", { fileName := some "note.txt"
                        , mimeType := some "text/plain"
                        , buffer := () })]
  , pdfStrategy := "auto"
  , renderScale := 2
  , minTextThreshold := 50 }

/-- An item of an unsupported kind. -/
def itemUnknown : Item Unit :=
  { binary := [("data", { fileName := some "blob.bin"
                        , mimeType := some "application/x-unknown"
                        , buffer := () })]
  , pdfStrategy := "auto"
  , renderScale := 2
  , minTextThreshold := 50 }

/-- Batch configuration used by the witnesses: operation `pdf`, French OCR,
continue-on-fail disabled. -/
def cfgPdf : Cfg :=
  { binaryProperty := "data"
  , operation := "pdf"
  , ocrLanguage := "fra"
  , preprocess := true
  , continueOnFail := false }

/-- Batch configuration with auto-detection and continue-on-fail enabled. -/
def cfgAuto : Cfg :=
  { binaryProperty := "data"
  , operation := "auto"
  , ocrLanguage := "fra"
  , preprocess := true
  , continueOnFail := true }

theorem splitOnDot_ne_nil (l : List Char) : splitOnDot l ≠ [] := by
  cases l with
  | nil => simp [splitOnDot]
  | cons c rest =>
    unfold splitOnDot
    by_cases h : c = '.'
    · simp [h]
    · simp only [h, if_false]
      cases splitOnDot rest <;> simp

theorem splitOnDot_no_dot (l : List Char) (h : '.' ∉ l) : splitOnDot l = [l] := by
  induction l with
  | nil => rfl
  | cons c rest ih =>
    have hc : c ≠ '.' := fun hc => h (hc ▸ List.mem_cons_self c rest)
    have hr : '.' ∉ rest := fun hr => h (List.mem_cons_of_mem c hr)
    unfold splitOnDot
    simp only [hc, if_false, ih hr]

theorem splitOnDot_singleton (l x : List Char) (h : splitOnDot l = [x]) :
    x = l ∧ '.' ∉ l := by
  induction l generalizing x with
  | nil =>
    simp [splitOnDot] at h
    simp [h]
  | cons c rest ih =>
    unfold splitOnDot at h
    by_cases hc : c = '.'
    · simp only [hc, if_true] at h
      obtain ⟨h1, h2⟩ := List.cons.injEq _ _ _ _ ▸ h
      exact absurd h2 (splitOnDot_ne_nil rest)
    · simp only [hc, if_false] at h
      rcases hs : splitOnDot rest with _ | ⟨y, ys⟩
      · exact absurd hs (splitOnDot_ne_nil rest)
      · rw [hs] at h
        obtain ⟨h1, h2⟩ := List.cons.injEq _ _ _ _ ▸ h
        subst h2
        obtain ⟨hy, hdot⟩ := ih y hs
        subst hy
        constructor
        · rw [← h1]
        · intro hmem
          rcases List.mem_cons.mp hmem with h | h
          · exact hc h.symm
          · exact hdot h

theorem getLastD_splitOnDot (l : List Char) :
    (splitOnDot l).getLastD [] = afterLastDot l := by
  induction l with
  | nil => rfl
  | cons c rest ih =>
    unfold splitOnDot afterLastDot
    by_cases hc : c = '.'
    · simp only [hc, if_true]
      by_cases hr : '.' ∈ rest
      · simp only [hr, if_true]
        rw [← ih]
        rcases hs : splitOnDot rest with _ | ⟨y, ys⟩
        · exact absurd hs (splitOnDot_ne_nil rest)
        · simp [List.getLastD_cons]
      · simp only [hr, if_false]
        rw [splitOnDot_no_dot rest hr]
        simp
    · simp only [hc, if_false]
      rcases hs : splitOnDot rest with _ | ⟨y, ys⟩
      · exact absurd hs (splitOnDot_ne_nil rest)
      · by_cases hr : '.' ∈ rest
        · simp only [hr, if_true]
          cases ys with
          | nil =>
            obtain ⟨hy, hdot⟩ := splitOnDot_singleton rest y hs
            exact absurd hr hdot
          | cons z zs =>
            rw [← ih, hs]
            simp [List.getLastD_cons]
        · simp only [hr, if_false]
          rw [splitOnDot_no_dot rest hr] at hs
          obtain ⟨h1, h2⟩ := List.cons.injEq _ _ _ _ ▸ hs
          subst h2
          simp [← h1, ← ih, splitOnDot_no_dot rest hr]

theorem lastDotSegment_eq_afterLastDot (f : String) :
    lastDotSegment f = jsToLower (String.mk (afterLastDot f.data)) := by
  unfold lastDotSegment
  rw [getLastD_splitOnDot]

theorem jsToLower_empty_iff (s : String) : jsToLower s = "" ↔ s = "" := by
  constructor
  · intro h
    have hd : s.data.map Char.toLower = [] := congrArg String.data h
    have hnil : s.data = [] := List.map_eq_nil_iff.mp hd
    cases s
    simp_all
  · intro h
    subst h
    rfl

theorem extBranch_eq_spec (fn : Option String) :
    extBranch fn =
      match fn with
      | some f =>
        if f ≠ "" then EXT_MAP.lookup (jsToLower (String.mk (afterLastDot f.data))) else none
      | none => none := by
  cases fn with
  | none => rfl
  | some f =>
    unfold extBranch
    by_cases hf : f = ""
    · simp [hf]
    · simp only [hf, ne_eq, not_false_eq_true, if_true]
      rw [← lastDotSegment_eq_afterLastDot]
      by_cases he : lastDotSegment f = ""
      · rw [if_neg (by simp [he]), he]
        decide
      · rw [if_pos (by simp [he])]

/-- C7: `detectFileType` implements exactly the detection algorithm the spec
states: the MIME table's mapping when `mimeType` is non-empty and present in
that table; otherwise, when `fileName` is non-empty, the extension table's
mapping of the lowercased substring after the last `.` when present;
otherwise null.  MIME wins whenever it resolves. -/
theorem detectFileType_matches_spec (mimeType fileName : Option String) :
    detectFileType mimeType fileName = specDetect mimeType fileName := by
  unfold detectFileType specDetect
  cases mimeType with
  | none => exact extBranch_eq_spec fileName
  | some m =>
    by_cases hm : m = ""
    · subst hm
      simp only [ne_eq, not_true_eq_false, if_false, false_and]
      exact extBranch_eq_spec fileName
    · simp only [hm, ne_eq, not_false_eq_true, if_true, true_and]
      cases hl : MIME_MAP.lookup m with
      | some t => simp [hl]
      | none =>
        simp only [hl, Option.isSome_none, Bool.false_eq_true, if_false]
        exact extBranch_eq_spec fileName

/-- C10: for a `fileName` with no `.` character, `detectFileType` looks up the
entire lowercased name in the extension table, so a dotless name equal to a
supported extension yields that kind rather than null. -/
theorem detect_dotless_whole_name (f : String) (hdot : '.' ∉ f.data) (hne : f ≠ "") :
    detectFileType none (some f) = EXT_MAP.lookup (jsToLower f) := by
  have hseg : lastDotSegment f = jsToLower f := by
    unfold lastDotSegment
    rw [splitOnDot_no_dot f.data hdot]
    cases f
    rfl
  show (if f ≠ "" then
          (if lastDotSegment f ≠ "" then EXT_MAP.lookup (lastDotSegment f) else none)
        else none)
      = EXT_MAP.lookup (jsToLower f)
  rw [if_pos hne, hseg, if_pos (fun h => hne ((jsToLower_empty_iff f).mp h))]

/-- C10 witness: the dotless name `txt` resolves through the extension table
to the `txt` kind. -/
theorem detect_dotless_whole_name_witness :
    ('.' ∉ "txt".data ∧ "txt" ≠ "") ∧
      detectFileType none (some "txt") = EXT_MAP.lookup (jsToLower "txt") :=
  ⟨by decide, detect_dotless_whole_name "txt" (by decide) (by decide)⟩

theorem ratFloor_eq_floor (x : ℚ) : Rat.floor x = ⌊x⌋ :=
  (Rat.floor_def' x).trans Rat.floor_def.symm

theorem jsRound_eq_round (q : ℚ) : jsRound q = round q := by
  have hden : ((q.den : ℚ)) ≠ 0 := Nat.cast_ne_zero.mpr q.den_pos.ne'
  have hnum : (q.num : ℚ) = q * (q.den : ℚ) :=
    (div_eq_iff hden).mp (Rat.num_div_den q)
  rw [round_eq, jsRound, ratFloor_eq_floor, Rat.divInt_eq_div]
  congr 1
  push_cast
  rw [div_eq_iff (by positivity)]
  rw [hnum]
  ring

theorem jsRoundDiv_eq_round (total : Int) (n : Nat) (h : n ≠ 0) :
    jsRoundDiv total n = JsNumber.int (round ((total : ℚ) / (n : ℚ))) := by
  unfold jsRoundDiv
  rw [if_neg h, jsRound_eq_round, Rat.divInt_eq_div]
  norm_cast

/-- C1: for a PDF call with strategy `auto`, when the trimmed text-layer
result reaches `minTextThreshold`, `extractFromPdf` returns that text with
method `pdf-text` and null confidence, and the event trace is empty: the OCR
path (rasterization and recognition) is never invoked. -/
theorem pdf_auto_short_circuit {Buf Img : Type} (env : Env Buf Img) (buffer : Buf)
    (worker : Option (OcrWorker Img)) (preprocess : Bool) (renderScale : ℚ)
    (minTextThreshold : Nat) (doc : PdfDoc)
    (hdoc : env.pdfDoc buffer = .ok doc)
    (hlen : minTextThreshold ≤ (jsTrim doc.text).length) :
    extractFromPdf env buffer "auto" worker preprocess renderScale minTextThreshold =
      .ok ({ text := jsTrim doc.text, pageCount := doc.numPages,
             confidence := none, method := "pdf-text" }, []) := by
  have hst : shouldTryText "auto" = true := rfl
  have ht : textPhase env buffer "auto" = .ok (jsTrim doc.text, doc.numPages) := by
    unfold textPhase
    rw [if_pos hst, hdoc]
  simp only [extractFromPdf, ht]
  rw [if_pos ⟨hst, hlen⟩]

/-- C1 witness: with threshold 3 and a 5-character text layer, the
short-circuit fires and no OCR event is emitted. -/
theorem pdf_auto_short_circuit_witness :
    (envC1.pdfDoc () = .ok { numPages := 2, text := "hello" } ∧
      3 ≤ (jsTrim (PdfDoc.text { numPages := 2, text := "hello" })).length) ∧
    extractFromPdf envC1 () "auto" none true 2 3 =
      .ok ({ text := jsTrim "hello", pageCount := 2,
             confidence := none, method := "pdf-text" }, []) :=
  ⟨⟨rfl, by decide⟩,
    pdf_auto_short_circuit envC1 () none true 2 3 { numPages := 2, text := "hello" }
      rfl (by decide)⟩

/-- C2: evaluating the OCR fallback on a zero-page rasterization.  The code
does reach the division `Math.round(totalConfidence / images.length)` with
`images.length = 0`, i.e. JS `0 / 0`: the result has zero pages and empty
text as the claim says, but its confidence is `some NaN` — a non-null,
non-numeric confidence is propagated with method `pdf-ocr`, contradicting
the claimed null confidence. -/
theorem pdf_zero_page_nan :
    extractFromPdf envZero () "ocr" (some wZero) true 2 50 =
      .ok ({ text := "", pageCount := 0,
             confidence := some JsNumber.nan, method := "pdf-ocr" },
           [Event.rasterized]) :=
  rfl

/-- C9: when neither the short-circuit nor the OCR path fires (no worker, or
a strategy that does not try OCR), `extractFromPdf` returns whatever the
text phase produced — possibly the empty string — with null confidence and
method `pdf-text`. -/
theorem pdf_neither_path {Buf Img : Type} (env : Env Buf Img) (buffer : Buf)
    (strategy : String) (worker : Option (OcrWorker Img)) (preprocess : Bool)
    (renderScale : ℚ) (minThr : Nat) (t : String) (n : Nat)
    (ht : textPhase env buffer strategy = .ok (t, n))
    (hsc : ¬(shouldTryText strategy = true ∧ minThr ≤ t.length))
    (hocr : ¬(shouldTryOcr strategy = true ∧ worker.isSome = true)) :
    extractFromPdf env buffer strategy worker preprocess renderScale minThr =
      .ok ({ text := t, pageCount := n, confidence := none, method := "pdf-text" }, []) := by
  simp only [extractFromPdf, ht]
  cases worker with
  | none => simp [hsc]
  | some w =>
    have hno : ¬ shouldTryOcr strategy = true := fun h => hocr ⟨h, rfl⟩
    simp [hsc, hno]

/-- C9 witness: strategy `text` with a short (5-character) text layer and no
worker returns the short text itself with method `pdf-text`. -/
theorem pdf_neither_path_witness :
    (textPhase envC1 () "text" = .ok ("hello", 2) ∧
      ¬(shouldTryText "text" = true ∧ 50 ≤ "hello".length) ∧
      ¬(shouldTryOcr "text" = true ∧ (none : Option (OcrWorker Unit)).isSome = true)) ∧
    extractFromPdf envC1 () "text" none true 2 50 =
      .ok ({ text := "hello", pageCount := 2,
             confidence := none, method := "pdf-text" }, []) :=
  ⟨⟨rfl, by decide, by decide⟩,
    pdf_neither_path envC1 () "text" none true 2 50 "hello" 2 rfl
      (by decide) (by decide)⟩

/-- C5: whenever the OCR fallback runs on a non-empty image sequence, the
result concatenates the per-page (trimmed) OCR texts with a blank-line
separator, has `pageCount` equal to the number of rasterized images, carries
method `pdf-ocr`, and its confidence is the per-page rounded confidences
averaged and rounded to the nearest integer (second conjunct); the trace
records the rasterization and one recognition per page. -/
theorem pdf_ocr_fallback {Buf Img : Type} (env : Env Buf Img) (buffer : Buf)
    (strategy : String) (w : OcrWorker Img) (preprocess : Bool) (renderScale : ℚ)
    (minThr : Nat) (t : String) (n : Nat) (images : List Img)
    (results : List (String × Option Int))
    (hocr : shouldTryOcr strategy = true)
    (ht : textPhase env buffer strategy = .ok (t, n))
    (hsc : ¬(shouldTryText strategy = true ∧ minThr ≤ t.length))
    (hras : env.rasterize buffer renderScale = .ok images)
    (hpages : ocrPages env w preprocess images = .ok results)
    (hne : images ≠ []) :
    extractFromPdf env buffer strategy (some w) preprocess renderScale minThr =
      .ok ({ text := jsJoin "\n\n" (results.map Prod.fst),
             pageCount := images.length,
             confidence :=
               some (jsRoundDiv ((results.map (fun r => r.2.getD 0)).sum) images.length),
             method := "pdf-ocr" },
           Event.rasterized :: results.map (fun _ => Event.recognized)) ∧
    jsRoundDiv ((results.map (fun r => r.2.getD 0)).sum) images.length =
      JsNumber.int (round
        ((((results.map (fun r => r.2.getD 0)).sum : Int) : ℚ) / (images.length : ℚ))) := by
  have hlen : images.length ≠ 0 := fun h => hne (List.length_eq_zero.mp h)
  constructor
  · simp only [extractFromPdf, ht, hocr, hras, hpages]
    simp [hsc]
  · exact jsRoundDiv_eq_round _ _ hlen

/-- C5 witness: the spec's own example — pages `PAGE1`/90 and `PAGE2`/80
under threshold 50 give text `PAGE1\n\nPAGE2`, pageCount 2, confidence 85,
method `pdf-ocr`. -/
theorem pdf_ocr_fallback_witness :
    (shouldTryOcr "auto" = true ∧
      textPhase envPages () "auto" = .ok ("hi", 2) ∧
      ¬(shouldTryText "auto" = true ∧ 50 ≤ "hi".length) ∧
      envPages.rasterize () 2 = .ok [0, 1] ∧
      ocrPages envPages wPages false [0, 1] =
        .ok [("PAGE1", some 90), ("PAGE2", some 80)] ∧
      ([0, 1] : List Nat) ≠ []) ∧
    extractFromPdf envPages () "auto" (some wPages) false 2 50 =
      .ok ({ text := "PAGE1\n\nPAGE2", pageCount := 2,
             confidence := some (JsNumber.int 85), method := "pdf-ocr" },
           [Event.rasterized, Event.recognized, Event.recognized]) :=
  ⟨⟨rfl, rfl, by decide, rfl, rfl, by decide⟩,
    (pdf_ocr_fallback envPages () "auto" wPages false 2 50 "hi" 2 [0, 1]
      [("PAGE1", some 90), ("PAGE2", some 80)] rfl rfl (by decide) rfl rfl
      (by decide)).1⟩

theorem extractFromImage_ok_conf {Buf Img : Type} (env : Env Buf Img) (w : OcrWorker Img)
    (preprocess : Bool) (buffer : Img) (t : String) (c : Option Int)
    (h : extractFromImage env w preprocess buffer = .ok (t, c)) : ∃ k, c = some k := by
  simp only [extractFromImage] at h
  split at h
  · exact absurd h (by simp)
  · rename_i v text confidence heq
    injection h with h1
    injection h1 with h2 h3
    exact ⟨jsRound confidence, h3.symm⟩

theorem extractFromPdf_ok_shape {Buf Img : Type} (env : Env Buf Img) (buffer : Buf)
    (strategy : String) (worker : Option (OcrWorker Img)) (preprocess : Bool)
    (renderScale : ℚ) (minThr : Nat) (r : PdfResult) (evs : List Event)
    (h : extractFromPdf env buffer strategy worker preprocess renderScale minThr =
      .ok (r, evs)) :
    (r.method = "pdf-text" ∧ r.confidence = none) ∨
      (r.method = "pdf-ocr" ∧ ∃ j, r.confidence = some j) := by
  unfold extractFromPdf at h
  split at h
  · exact absurd h (by simp)
  · split at h
    · injection h with h1
      injection h1 with h2 h3
      subst h2
      exact Or.inl ⟨rfl, rfl⟩
    · split at h
      · split at h
        · split at h
          · exact absurd h (by simp)
          · split at h
            · exact absurd h (by simp)
            · injection h with h1
              injection h1 with h2 h3
              subst h2
              exact Or.inr ⟨rfl, _, rfl⟩
        · injection h with h1
          injection h1 with h2 h3
          subst h2
          exact Or.inl ⟨rfl, rfl⟩
      · injection h with h1
        injection h1 with h2 h3
        subst h2
        exact Or.inl ⟨rfl, rfl⟩

theorem dispatch_ok_shape {Buf Img : Type} (env : Env Buf Img) (cfg : Cfg) (item : Item Buf)
    (w : Option (OcrWorker Img)) (buffer : Buf) (ft : FileType) (evs : List Event)
    (t : String) (pc : Option Nat) (conf : Option JsNumber) (m : String)
    (h : dispatch env cfg item w buffer ft = (evs, .ok (t, pc, conf, m))) :
    ((conf ≠ none) ↔ (m = "ocr" ∨ m = "pdf-ocr")) ∧
      ((pc ≠ none) ↔ jsStartsWith m "pdf" = true) := by
  cases ft with
  | image =>
    simp only [dispatch] at h
    split at h
    · injection h with h1 h2
      exact Except.noConfusion h2
    · rename_i w0
      split at h
      · injection h with h1 h2
        exact Except.noConfusion h2
      · rename_i tt cc heq
        obtain ⟨k, hk⟩ := extractFromImage_ok_conf env w0 cfg.preprocess
          (env.bufAsImage buffer) tt cc heq
        subst hk
        injection h with h1 h2
        injection h2 with h3
        injection h3 with ht h4
        injection h4 with hpc h5
        injection h5 with hconf hm
        subst hpc hconf hm
        refine ⟨by simp, by simp [jsStartsWith]⟩
  | pdf =>
    simp only [dispatch] at h
    split at h
    · injection h with h1 h2
      exact Except.noConfusion h2
    · rename_i rr evs2 heq
      injection h with h1 h2
      injection h2 with h3
      injection h3 with ht h4
      injection h4 with hpc h5
      injection h5 with hconf hm
      subst hpc hconf hm
      rcases extractFromPdf_ok_shape env buffer item.pdfStrategy w cfg.preprocess
          item.renderScale item.minTextThreshold rr evs2 heq with
        ⟨hmeth, hc⟩ | ⟨hmeth, j, hc⟩
      · rw [hmeth, hc]
        refine ⟨by simp, by simp [jsStartsWith]⟩
      · rw [hmeth, hc]
        refine ⟨by simp, by simp [jsStartsWith]⟩
  | docx =>
    simp only [dispatch] at h
    split at h
    · injection h with h1 h2
      exact Except.noConfusion h2
    · injection h with h1 h2
      injection h2 with h3
      injection h3 with ht h4
      injection h4 with hpc h5
      injection h5 with hconf hm
      subst hpc hconf hm
      refine ⟨by simp, by simp [jsStartsWith]⟩
  | doc =>
    simp only [dispatch] at h
    split at h
    · injection h with h1 h2
      exact Except.noConfusion h2
    · injection h with h1 h2
      injection h2 with h3
      injection h3 with ht h4
      injection h4 with hpc h5
      injection h5 with hconf hm
      subst hpc hconf hm
      refine ⟨by simp, by simp [jsStartsWith]⟩
  | txt =>
    simp only [dispatch] at h
    injection h with h1 h2
    injection h2 with h3
    injection h3 with ht h4
    injection h4 with hpc h5
    injection h5 with hconf hm
    subst hpc hconf hm
    refine ⟨by simp, by simp [jsStartsWith]⟩

theorem processItem_ok_shape {Buf Img : Type} (env : Env Buf Img) (cfg : Cfg)
    (w w2 : Option (OcrWorker Img)) (item : Item Buf) (evsAll : List Event) (r : OutRec)
    (h : processItem env cfg w item = (w2, evsAll, Except.ok r)) :
    ∃ bd ft t pc conf m evs2,
      resolveBinary cfg.binaryProperty item = some bd ∧
      resolveFileType cfg.operation (bd.mimeType.getD "") (bd.fileName.getD "unknown") =
        some ft ∧
      dispatch env cfg item w2 bd.buffer ft = (evs2, .ok (t, pc, conf, m)) ∧
      r = { text := some t
          , fileName := bd.fileName.getD "unknown"
          , mimeType := bd.mimeType.getD ""
          , fileType := some ft
          , pageCount := pc
          , confidence := conf
          , language := if needsOcrFor ft item.pdfStrategy then some cfg.ocrLanguage else none
          , method := some m
          , error := none } := by
  simp only [processItem] at h
  split at h
  · injection h with h1 h2
    injection h2 with h3 h4
    exact Except.noConfusion h4
  · rename_i bd hbd
    split at h
    · injection h with h1 h2
      injection h2 with h3 h4
      exact Except.noConfusion h4
    · rename_i ft hft
      split at h
      · injection h with h1 h2
        injection h2 with h3 h4
        exact Except.noConfusion h4
      · rename_i worker2 evs1 hiw
        split at h
        · injection h with h1 h2
          injection h2 with h3 h4
          exact Except.noConfusion h4
        · rename_i evs2 t pc conf m hd
          injection h with h1 h2
          injection h2 with h3 h4
          injection h4 with h5
          subst h1
          subst h5
          exact ⟨bd, ft, t, pc, conf, m, evs2, hbd, hft, hd, rfl⟩

/-- C3 counterexample: a PDF item with strategy `auto` whose text layer meets
the threshold produces a successful record whose method is `pdf-text` (OCR
did not produce the text) and whose `language` is nonetheless the configured
OCR language `fra`, not null — refuting the claim that `language` is null
whenever the result method is `pdf-text`. -/
theorem pdf_text_language_counterexample :
    (processItem envBatch cfgPdf (none : Option (OcrWorker Unit)) itemPdfShort).2.2 =
      Except.ok
        { text := some "hello", fileName := "a.pdf", mimeType := "application/pdf"
        , fileType := some FileType.pdf, pageCount := some 1, confidence := none
        , language := some "fra", method := some "pdf-text", error := none } ∧
    (some "fra" : Option String) ≠ none :=
  ⟨rfl, by decide⟩

/-- C3 (amended): for every successfully processed item, `language` is the
configured OCR language exactly when the item's resolved kind required the
OCR engine (`image`, or `pdf` with strategy other than `text`), and null
otherwise — regardless of whether OCR actually produced the text. -/
theorem language_iff_needs_ocr {Buf Img : Type} (env : Env Buf Img) (cfg : Cfg)
    (w w2 : Option (OcrWorker Img)) (item : Item Buf) (evsAll : List Event) (r : OutRec)
    (h : processItem env cfg w item = (w2, evsAll, Except.ok r))
    (bd : BinaryData Buf) (ft : FileType)
    (hb : resolveBinary cfg.binaryProperty item = some bd)
    (hf : resolveFileType cfg.operation (bd.mimeType.getD "") (bd.fileName.getD "unknown") =
      some ft) :
    r.language = if needsOcrFor ft item.pdfStrategy then some cfg.ocrLanguage else none := by
  obtain ⟨bd', ft', t, pc, conf, m, evs2, hb', hf', hd', hr⟩ :=
    processItem_ok_shape env cfg w w2 item evsAll r h
  rw [hb] at hb'
  injection hb' with hbd
  subst hbd
  rw [hf] at hf'
  injection hf' with hft
  subst hft
  rw [hr]

/-- C3 witness (for the amended claim): the short-circuiting PDF item needs
OCR (`pdf` with strategy `auto`), so its record's `language` is `fra`. -/
theorem language_iff_needs_ocr_witness :
    (processItem envBatch cfgPdf (none : Option (OcrWorker Unit)) itemPdfShort =
        (some wZero, [Event.created "fra"],
          Except.ok
            { text := some "hello", fileName := "a.pdf", mimeType := "application/pdf"
            , fileType := some FileType.pdf, pageCount := some 1, confidence := none
            , language := some "fra", method := some "pdf-text", error := none }) ∧
      resolveBinary "data" itemPdfShort =
        some { fileName := some "a.pdf", mimeType := some "application/pdf", buffer := () } ∧
      resolveFileType "pdf" "application/pdf" "a.pdf" = some FileType.pdf) ∧
    (some "fra" : Option String) =
      (if needsOcrFor FileType.pdf "auto" then some "fra" else none) :=
  ⟨⟨rfl, rfl, rfl⟩,
    language_iff_needs_ocr envBatch cfgPdf none (some wZero) itemPdfShort
      [Event.created "fra"]
      { text := some "hello", fileName := "a.pdf", mimeType := "application/pdf"
      , fileType := some FileType.pdf, pageCount := some 1, confidence := none
      , language := some "fra", method := some "pdf-text", error := none }
      rfl
      { fileName := some "a.pdf", mimeType := some "application/pdf", buffer := () }
      FileType.pdf rfl rfl⟩

/-- C4: for every successfully processed item, the record's `confidence` is
non-null exactly when its `method` is `ocr` or `pdf-ocr`, and its
`pageCount` is non-null exactly when its `method` starts with `pdf`. -/
theorem method_determines_nullability {Buf Img : Type} (env : Env Buf Img) (cfg : Cfg)
    (w w2 : Option (OcrWorker Img)) (item : Item Buf) (evsAll : List Event) (r : OutRec)
    (h : processItem env cfg w item = (w2, evsAll, Except.ok r)) :
    ((r.confidence ≠ none) ↔ (r.method = some "ocr" ∨ r.method = some "pdf-ocr")) ∧
      ((r.pageCount ≠ none) ↔ (∃ m, r.method = some m ∧ jsStartsWith m "pdf" = true)) := by
  obtain ⟨bd, ft, t, pc, conf, m, evs2, hb, hf, hd, hr⟩ :=
    processItem_ok_shape env cfg w w2 item evsAll r h
  obtain ⟨hcm, hpm⟩ := dispatch_ok_shape env cfg item w2 bd.buffer ft evs2 t pc conf m hd
  subst hr
  constructor
  · simpa using hcm
  · constructor
    · intro hne
      exact ⟨m, rfl, hpm.mp hne⟩
    · rintro ⟨mm, hmm, hs⟩
      injection hmm with hmm'
      subst hmm'
      exact hpm.mpr hs

/-- C4 witness: a plain-text item yields method `txt` with both `confidence`
and `pageCount` null, satisfying both biconditionals. -/
theorem method_determines_nullability_witness :
    processItem envBatch cfgAuto (none : Option (OcrWorker Unit)) itemTxt =
      (none, [],
        Except.ok
          { text := some "hello world", fileName := "note.txt", mimeType := "text/plain"
          , fileType := some FileType.txt, pageCount := none, confidence := none
          , language := none, method := some "txt", error := none }) ∧
    (((none : Option JsNumber) ≠ none) ↔
      ((some "txt" : Option String) = some "ocr" ∨
        (some "txt" : Option String) = some "pdf-ocr")) ∧
    (((none : Option Nat) ≠ none) ↔
      (∃ m, (some "txt" : Option String) = some m ∧ jsStartsWith m "pdf" = true)) :=
  ⟨rfl,
    method_determines_nullability envBatch cfgAuto none none itemTxt []
      { text := some "hello world", fileName := "note.txt", mimeType := "text/plain"
      , fileType := some FileType.txt, pageCount := none, confidence := none
      , language := none, method := some "txt", error := none }
      rfl⟩

theorem countP_const_map_zero {α β : Type} (p : β → Bool) (a : β) (l : List α)
    (hp : p a = false) : (l.map (fun _ => a)).countP p = 0 := by
  induction l with
  | nil => rfl
  | cons x xs ih => simp [List.countP_cons, hp, ih]

theorem extractFromPdf_events {Buf Img : Type} (env : Env Buf Img) (buffer : Buf)
    (strategy : String) (worker : Option (OcrWorker Img)) (preprocess : Bool)
    (renderScale : ℚ) (minThr : Nat) (r : PdfResult) (evs : List Event)
    (h : extractFromPdf env buffer strategy worker preprocess renderScale minThr =
      .ok (r, evs)) :
    evs.countP isCreatedEv = 0 ∧ evs.countP isTerminatedEv = 0 := by
  unfold extractFromPdf at h
  split at h
  · exact absurd h (by simp)
  · split at h
    · injection h with h1
      injection h1 with h2 h3
      subst h3
      exact ⟨rfl, rfl⟩
    · split at h
      · split at h
        · split at h
          · exact absurd h (by simp)
          · split at h
            · exact absurd h (by simp)
            · injection h with h1
              injection h1 with h2 h3
              subst h3
              constructor
              · simp [List.countP_cons, countP_const_map_zero, isCreatedEv]
              · simp [List.countP_cons, countP_const_map_zero, isTerminatedEv]
        · injection h with h1
          injection h1 with h2 h3
          subst h3
          exact ⟨rfl, rfl⟩
      · injection h with h1
        injection h1 with h2 h3
        subst h3
        exact ⟨rfl, rfl⟩

theorem dispatch_events {Buf Img : Type} (env : Env Buf Img) (cfg : Cfg) (item : Item Buf)
    (w : Option (OcrWorker Img)) (buffer : Buf) (ft : FileType) (evs : List Event)
    (res : Except String (String × Option Nat × Option JsNumber × String))
    (h : dispatch env cfg item w buffer ft = (evs, res)) :
    evs.countP isCreatedEv = 0 ∧ evs.countP isTerminatedEv = 0 := by
  cases ft with
  | image =>
    simp only [dispatch] at h
    split at h
    · injection h with h1 h2
      subst h1
      exact ⟨rfl, rfl⟩
    · split at h
      · injection h with h1 h2
        subst h1
        exact ⟨rfl, rfl⟩
      · injection h with h1 h2
        subst h1
        exact ⟨rfl, rfl⟩
  | pdf =>
    simp only [dispatch] at h
    split at h
    · injection h with h1 h2
      subst h1
      exact ⟨rfl, rfl⟩
    · rename_i rr evs2 heq
      injection h with h1 h2
      subst h1
      exact extractFromPdf_events env buffer item.pdfStrategy w cfg.preprocess
        item.renderScale item.minTextThreshold rr evs2 heq
  | docx =>
    simp only [dispatch] at h
    split at h
    · injection h with h1 h2
      subst h1
      exact ⟨rfl, rfl⟩
    · injection h with h1 h2
      subst h1
      exact ⟨rfl, rfl⟩
  | doc =>
    simp only [dispatch] at h
    split at h
    · injection h with h1 h2
      subst h1
      exact ⟨rfl, rfl⟩
    · injection h with h1 h2
      subst h1
      exact ⟨rfl, rfl⟩
  | txt =>
    simp only [dispatch] at h
    injection h with h1 h2
    subst h1
    exact ⟨rfl, rfl⟩

theorem initWorker_cases {Buf Img : Type} (env : Env Buf Img) (lang : String)
    (needsOcr : Bool) (w w2 : Option (OcrWorker Img)) (evs : List Event)
    (res : Except String Unit)
    (h : initWorker env lang needsOcr w = (w2, evs, res)) :
    evs.countP isTerminatedEv = 0 ∧
    (w.isSome = true → w2 = w ∧ evs.countP isCreatedEv = 0) ∧
    (w = none → evs.countP isCreatedEv = (if w2.isSome then 1 else 0)) := by
  unfold initWorker at h
  split at h
  · rename_i hcond
    have hwn : w = none := by
      have := (Bool.and_eq_true _ _).mp hcond
      exact Option.isNone_iff_eq_none.mp this.2
    split at h
    · injection h with h1 h2
      injection h2 with h3 h4
      subst h1 h3
      refine ⟨rfl, ?_, fun _ => rfl⟩
      intro hs
      rw [hwn] at hs
      exact absurd hs (by simp)
    · injection h with h1 h2
      injection h2 with h3 h4
      subst h1 h3
      refine ⟨rfl, fun _ => ⟨rfl, rfl⟩, ?_⟩
      intro hw
      subst hw
      rfl
  · injection h with h1 h2
    injection h2 with h3 h4
    subst h1 h3
    refine ⟨rfl, fun _ => ⟨rfl, rfl⟩, ?_⟩
    intro hw
    subst hw
    rfl

theorem processItem_events {Buf Img : Type} (env : Env Buf Img) (cfg : Cfg)
    (w w2 : Option (OcrWorker Img)) (item : Item Buf) (evs : List Event)
    (res : Except String OutRec)
    (h : processItem env cfg w item = (w2, evs, res)) :
    evs.countP isTerminatedEv = 0 ∧
    (w.isSome = true → w2 = w ∧ evs.countP isCreatedEv = 0) ∧
    (w = none → evs.countP isCreatedEv = (if w2.isSome then 1 else 0)) := by
  simp only [processItem] at h
  split at h
  · injection h with h1 h2
    injection h2 with h3 h4
    subst h1 h3
    refine ⟨rfl, fun _ => ⟨rfl, rfl⟩, ?_⟩
    intro hw
    subst hw
    rfl
  · split at h
    · injection h with h1 h2
      injection h2 with h3 h4
      subst h1 h3
      refine ⟨rfl, fun _ => ⟨rfl, rfl⟩, ?_⟩
      intro hw
      subst hw
      rfl
    · split at h
      · rename_i worker2 evs1 e hiw
        injection h with h1 h2
        injection h2 with h3 h4
        subst h1 h3
        exact initWorker_cases env cfg.ocrLanguage _ w _ _ _ hiw
      · rename_i worker2 evs1 hiw
        split at h
        · rename_i evs2 e hd
          injection h with h1 h2
          injection h2 with h3 h4
          subst h1 h3
          obtain ⟨hi1, hi2, hi3⟩ := initWorker_cases env cfg.ocrLanguage _ w _ _ _ hiw
          obtain ⟨hd1, hd2⟩ := dispatch_events env cfg item worker2 _ _ evs2 _ hd
          refine ⟨?_, ?_, ?_⟩
          · rw [List.countP_append, hi1, hd2]
          · intro hs
            obtain ⟨hw2, hc⟩ := hi2 hs
            exact ⟨hw2, by rw [List.countP_append, hc, hd1]⟩
          · intro hw
            rw [List.countP_append, hi3 hw, hd1]
            simp
        · rename_i evs2 t pc conf m hd
          injection h with h1 h2
          injection h2 with h3 h4
          subst h1 h3
          obtain ⟨hi1, hi2, hi3⟩ := initWorker_cases env cfg.ocrLanguage _ w _ _ _ hiw
          obtain ⟨hd1, hd2⟩ := dispatch_events env cfg item worker2 _ _ evs2 _ hd
          refine ⟨?_, ?_, ?_⟩
          · rw [List.countP_append, hi1, hd2]
          · intro hs
            obtain ⟨hw2, hc⟩ := hi2 hs
            exact ⟨hw2, by rw [List.countP_append, hc, hd1]⟩
          · intro hw
            rw [List.countP_append, hi3 hw, hd1]
            simp

theorem runLoop_events {Buf Img : Type} (env : Env Buf Img) (cfg : Cfg) :
    ∀ (items : List (Item Buf)) (w w2 : Option (OcrWorker Img)) (recs : List OutRec)
      (evs : List Event) (ab : Option String),
      runLoop env cfg w items = (w2, recs, evs, ab) →
      evs.countP isTerminatedEv = 0 ∧
      (w.isSome = true → w2 = w ∧ evs.countP isCreatedEv = 0) ∧
      (w = none → evs.countP isCreatedEv = (if w2.isSome then 1 else 0))
  | [], w, w2, recs, evs, ab, h => by
    injection h with h1 h2
    injection h2 with h3 h4
    injection h4 with h5 h6
    subst h1 h5
    refine ⟨rfl, fun _ => ⟨rfl, rfl⟩, ?_⟩
    intro hw
    subst hw
    rfl
  | item :: rest, w, w2, recs, evs, ab, h => by
    simp only [runLoop] at h
    split at h
    · rename_i worker2 evsX r hp
      rcases hrl : runLoop env cfg worker2 rest with ⟨w3, recs3, evs3, ab3⟩
      simp only [hrl] at h
      injection h with h1 h2
      injection h2 with h3 h4
      injection h4 with h5 h6
      subst h1 h5
      obtain ⟨hp1, hp2, hp3⟩ := processItem_events env cfg w worker2 item evsX _ hp
      obtain ⟨hr1, hr2, hr3⟩ := runLoop_events env cfg rest worker2 w3 recs3 evs3 ab3 hrl
      refine ⟨?_, ?_, ?_⟩
      · rw [List.countP_append, hp1, hr1]
      · intro hs
        obtain ⟨hw2, hc⟩ := hp2 hs
        subst hw2
        obtain ⟨hw3, hc3⟩ := hr2 hs
        exact ⟨hw3, by rw [List.countP_append, hc, hc3]⟩
      · intro hw
        subst hw
        cases hw2 : worker2 with
        | none =>
          rw [hw2] at hp3 hr3
          rw [List.countP_append, hp3 rfl, hr3 rfl]
          simp
        | some w0 =>
          rw [hw2] at hp3 hr2
          obtain ⟨hw3, hc3⟩ := hr2 (by simp)
          subst hw3
          rw [List.countP_append, hp3 rfl, hc3]
          simp
    · rename_i worker2 evsX e hp
      split at h
      · rcases hrl : runLoop env cfg worker2 rest with ⟨w3, recs3, evs3, ab3⟩
        simp only [hrl] at h
        injection h with h1 h2
        injection h2 with h3 h4
        injection h4 with h5 h6
        subst h1 h5
        obtain ⟨hp1, hp2, hp3⟩ := processItem_events env cfg w worker2 item evsX _ hp
        obtain ⟨hr1, hr2, hr3⟩ := runLoop_events env cfg rest worker2 w3 recs3 evs3 ab3 hrl
        refine ⟨?_, ?_, ?_⟩
        · rw [List.countP_append, hp1, hr1]
        · intro hs
          obtain ⟨hw2, hc⟩ := hp2 hs
          subst hw2
          obtain ⟨hw3, hc3⟩ := hr2 hs
          exact ⟨hw3, by rw [List.countP_append, hc, hc3]⟩
        · intro hw
          subst hw
          cases hw2 : worker2 with
          | none =>
            rw [hw2] at hp3 hr3
            rw [List.countP_append, hp3 rfl, hr3 rfl]
            simp
          | some w0 =>
            rw [hw2] at hp3 hr2
            obtain ⟨hw3, hc3⟩ := hr2 (by simp)
            subst hw3
            rw [List.countP_append, hp3 rfl, hc3]
            simp
      · injection h with h1 h2
        injection h2 with h3 h4
        injection h4 with h5 h6
        subst h1 h5
        exact processItem_events env cfg w _ item _ _ hp

/-- C6: in every batch run, whatever the environment, configuration and
items — including runs where items fail under continuation and runs aborted
by an uncaught error — the OCR engine is created at most once, and the
number of termination events equals the number of creation events: the
engine is terminated exactly once when it was created and never otherwise. -/
theorem worker_lifecycle {Buf Img : Type} (env : Env Buf Img) (cfg : Cfg)
    (items : List (Item Buf)) :
    (execute env cfg items).2.countP isCreatedEv ≤ 1 ∧
    (execute env cfg items).2.countP isTerminatedEv =
      (execute env cfg items).2.countP isCreatedEv := by
  rcases hr : runLoop env cfg (none : Option (OcrWorker Img)) items with ⟨w, recs, evs, ab⟩
  obtain ⟨hterm, _, hcreated⟩ := runLoop_events env cfg items none w recs evs ab hr
  have hc := hcreated rfl
  have hex : (execute env cfg items).2 =
      evs ++ (if w.isSome then [Event.terminated] else []) := by
    simp only [execute, hr]
  rw [hex, List.countP_append, List.countP_append, hterm, hc]
  cases w with
  | none => simp
  | some w0 => simp [List.countP_cons, isCreatedEv, isTerminatedEv]

/-- C8: under continue-on-fail, an item whose processing throws contributes a
degraded record — the error message, best-effort filename/MIME recovered
from the item's binary metadata, and every other field null — and the loop
continues with the remaining items instead of aborting the batch. -/
theorem continue_on_fail_isolates {Buf Img : Type} (env : Env Buf Img) (cfg : Cfg)
    (w w2 : Option (OcrWorker Img)) (evs : List Event) (e : String)
    (item : Item Buf) (rest : List (Item Buf))
    (hc : cfg.continueOnFail = true)
    (hp : processItem env cfg w item = (w2, evs, Except.error e)) :
    (runLoop env cfg w (item :: rest)).2.1 =
      degradedRecord cfg.binaryProperty item e :: (runLoop env cfg w2 rest).2.1 ∧
    (runLoop env cfg w (item :: rest)).2.2.2 = (runLoop env cfg w2 rest).2.2.2 ∧
    (degradedRecord cfg.binaryProperty item e).error = some e ∧
    (degradedRecord cfg.binaryProperty item e).text = none ∧
    (degradedRecord cfg.binaryProperty item e).fileType = none ∧
    (degradedRecord cfg.binaryProperty item e).pageCount = none ∧
    (degradedRecord cfg.binaryProperty item e).confidence = none ∧
    (degradedRecord cfg.binaryProperty item e).language = none ∧
    (degradedRecord cfg.binaryProperty item e).method = none ∧
    (degradedRecord cfg.binaryProperty item e).fileName =
      ((bestEffortBinaryData cfg.binaryProperty item).bind BinaryData.fileName).getD
        "unknown" ∧
    (degradedRecord cfg.binaryProperty item e).mimeType =
      ((bestEffortBinaryData cfg.binaryProperty item).bind BinaryData.mimeType).getD "" := by
  have key :
      runLoop env cfg w (item :: rest) =
        ((runLoop env cfg w2 rest).1,
          degradedRecord cfg.binaryProperty item e :: (runLoop env cfg w2 rest).2.1,
          evs ++ (runLoop env cfg w2 rest).2.2.1,
          (runLoop env cfg w2 rest).2.2.2) := by
    simp only [runLoop, hp, hc, eq_self_iff_true, if_true]
  rw [key]
  exact ⟨rfl, rfl, rfl, rfl, rfl, rfl, rfl, rfl, rfl, rfl, rfl⟩

/-- C8 witness: an unsupported-type item under continue-on-fail yields the
degraded record and leaves the rest of the batch to run. -/
theorem continue_on_fail_isolates_witness :
    (cfgAuto.continueOnFail = true ∧
      processItem envBatch cfgAuto (none : Option (OcrWorker Unit)) itemUnknown =
        (none, [], Except.error "Unsupported file type: application/x-unknown")) ∧
    (runLoop envBatch cfgAuto none [itemUnknown]).2.1 =
      degradedRecord "data" itemUnknown "Unsupported file type: application/x-unknown" ::
        (runLoop envBatch cfgAuto (none : Option (OcrWorker Unit)) []).2.1 :=
  ⟨⟨rfl, rfl⟩,
    (continue_on_fail_isolates envBatch cfgAuto none none []
      "Unsupported file type: application/x-unknown" itemUnknown [] rfl rfl).1⟩
